import Mathlib

/-!
Shallow embedding of the task-reminder Telegram bot (`app/bot.py`).

Text values (Python `str`, SQLite `TEXT`) are modelled as `List Char`.
SQLite's BINARY collation on TEXT is modelled by the lexicographic
comparison `lexLt` below (memcmp semantics: a strict prefix is smaller).
Python `datetime` values are modelled by the `DateTime` structure; Python's
`datetime` comparison is chronological, i.e. lexicographic on the fields,
which for bounded fields coincides with comparison of the mixed-radix
encoding `key6`.
-/

abbrev Str := List Char

namespace Bot

/-- memcmp-style lexicographic strict order on character lists; models both
SQLite BINARY collation on TEXT values and Python string comparison. -/
def lexLt : Str → Str → Bool
  | [], [] => false
  | [], _ :: _ => true
  | _ :: _, [] => false
  | a :: as, b :: bs => if a < b then true else if b < a then false else lexLt as bs

def lexLe (a b : Str) : Bool := !(lexLt b a)

/-- ASCII decimal digit characters. -/
def digitChar : Nat → Char
  | 0 => '0' | 1 => '1' | 2 => '2' | 3 => '3' | 4 => '4'
  | 5 => '5' | 6 => '6' | 7 => '7' | 8 => '8' | _ => '9'

/-- Two-digit zero-padded decimal rendering (for values below 100), as
produced by SQLite's `datetime()` and by `strftime`-style formatting. -/
def pad2 (n : Nat) : Str := [digitChar (n / 10), digitChar (n % 10)]

/-- Four-digit zero-padded decimal rendering (for values below 10000). -/
def pad4 (n : Nat) : Str := pad2 (n / 100) ++ pad2 (n % 100)

/-- A naive local wall-clock datetime, second granularity, mirroring
Python's `datetime.datetime`. -/
structure DateTime where
  year : Nat
  month : Nat
  day : Nat
  hour : Nat
  minute : Nat
  second : Nat
deriving DecidableEq, Repr

/-- Field bounds of a real `datetime.datetime` value. -/
def ValidDT (d : DateTime) : Prop :=
  1 ≤ d.year ∧ d.year ≤ 9999 ∧ 1 ≤ d.month ∧ d.month ≤ 12 ∧
  1 ≤ d.day ∧ d.day ≤ 31 ∧ d.hour < 24 ∧ d.minute < 60 ∧ d.second < 60

instance (d : DateTime) : Decidable (ValidDT d) := by
  unfold ValidDT; infer_instance

/-- Mixed-radix encoding of the date fields; for valid datetimes,
`dateKey` comparison is chronological comparison of calendar dates. -/
def dateKey (d : DateTime) : Nat := (d.year * 100 + d.month) * 100 + d.day

/-- Mixed-radix encoding of the minute-truncated value. -/
def key5 (d : DateTime) : Nat := (dateKey d * 100 + d.hour) * 100 + d.minute

/-- Mixed-radix encoding of a full datetime; for valid datetimes `key6`
comparison coincides with Python `datetime` (chronological) comparison. -/
def key6 (d : DateTime) : Nat := key5 d * 100 + d.second

/-- Truncation to minute granularity. -/
def floorMin (d : DateTime) : DateTime := { d with second := 0 }

/-- `YYYY-MM-DD HH:MM` rendering (the canonical stored-deadline format). -/
def fmt16 (d : DateTime) : Str :=
  pad4 d.year ++ '-' :: (pad2 d.month ++ '-' :: (pad2 d.day ++
    ' ' :: (pad2 d.hour ++ ':' :: pad2 d.minute)))

/-- `YYYY-MM-DD HH:MM:SS` rendering, the format of SQLite's
`datetime('now', 'localtime')`. -/
def fmt19 (d : DateTime) : Str := fmt16 d ++ ':' :: pad2 d.second

def isLeap (y : Nat) : Bool := (y % 4 = 0 && y % 100 ≠ 0) || y % 400 = 0

def daysInMonth (y m : Nat) : Nat :=
  if m = 2 then (if isLeap y then 29 else 28)
  else if m = 4 ∨ m = 6 ∨ m = 9 ∨ m = 11 then 30
  else 31

/-- Adds one calendar day keeping the wall-clock time, which is what
SQLite's `datetime(t, '+24 hours')` computes on naive local timestamps. -/
def add24h (d : DateTime) : DateTime :=
  if d.day < daysInMonth d.year d.month then { d with day := d.day + 1 }
  else if d.month < 12 then { d with month := d.month + 1, day := 1 }
  else { d with year := d.year + 1, month := 1, day := 1 }

/-! ### The `strptime('%Y-%m-%d %H:%M')` parser

CPython's `_strptime` matches `%Y` as exactly four digits and `%m`, `%d`,
`%H`, `%M` as one-or-two-digit numbers in range (leading zero optional),
a whitespace in the format as one-or-more whitespace characters, requires
the whole string to be consumed, and finally validates the day against the
month length (and the year against `MINYEAR = 1`). -/

def isDigitCh (c : Char) : Bool := '0' ≤ c ∧ c ≤ '9'

def digitVal (c : Char) : Nat := c.toNat - 48

def isSpaceCh (c : Char) : Bool :=
  c = ' ' ∨ c = '\t' ∨ c = '\n' ∨ c = '\r' ∨ c = '\x0b' ∨ c = '\x0c'

/-- One-or-two-digit numeric field: the two-digit reading is taken when the
next two characters are digits and the value passes `ok`; otherwise the
one-digit reading is tried.  (Regex backtracking to the shorter reading
never changes acceptance here because every following literal in the
format is a non-digit.) -/
def parseNum2 (ok : Nat → Bool) : Str → Option (Nat × Str)
  | c1 :: c2 :: rest =>
    if isDigitCh c1 && isDigitCh c2 && ok (digitVal c1 * 10 + digitVal c2) then
      some (digitVal c1 * 10 + digitVal c2, rest)
    else if isDigitCh c1 && ok (digitVal c1) then
      some (digitVal c1, c2 :: rest)
    else none
  | [c1] => if isDigitCh c1 && ok (digitVal c1) then some (digitVal c1, []) else none
  | [] => none

/-- One-or-more whitespace characters (the format's single blank). -/
def parseSpaces : Str → Option Str
  | c :: rest =>
    if isSpaceCh c then some (rest.dropWhile isSpaceCh) else none
  | [] => none

def parseLit (c : Char) : Str → Option Str
  | c' :: rest => if c' = c then some rest else none
  | [] => none

/-- `datetime.strptime(s, '%Y-%m-%d %H:%M')`, returning `none` where the
Python call raises `ValueError`.  The parsed datetime has `second = 0`. -/
def parseDT (s : Str) : Option DateTime :=
  match s with
  | y1 :: y2 :: y3 :: y4 :: rest =>
    if isDigitCh y1 && isDigitCh y2 && isDigitCh y3 && isDigitCh y4 then
      let y := ((digitVal y1 * 10 + digitVal y2) * 10 + digitVal y3) * 10 + digitVal y4
      match parseLit '-' rest with
      | none => none
      | some r1 =>
        match parseNum2 (fun v => 1 ≤ v && v ≤ 12) r1 with
        | none => none
        | some (mo, r2) =>
          match parseLit '-' r2 with
          | none => none
          | some r3 =>
            match parseNum2 (fun v => 1 ≤ v && v ≤ 31) r3 with
            | none => none
            | some (dy, r4) =>
              match parseSpaces r4 with
              | none => none
              | some r5 =>
                match parseNum2 (fun v => v < 24) r5 with
                | none => none
                | some (h, r6) =>
                  match parseLit ':' r6 with
                  | none => none
                  | some r7 =>
                    match parseNum2 (fun v => v < 60) r7 with
                    | none => none
                    | some (mi, r8) =>
                      if r8 = [] && 1 ≤ y && dy ≤ daysInMonth y mo then
                        some ⟨y, mo, dy, h, mi, 0⟩
                      else none
    else none
  | _ => none

/-! ### Python string helpers used by the handlers -/

/-- Python `str.split(';')`: splits at every semicolon, keeping empty
pieces; always returns one more piece than there are semicolons. -/
def splitSemi : Str → List Str
  | [] => [[]]
  | c :: rest =>
    if c = ';' then [] :: splitSemi rest
    else
      match splitSemi rest with
      | s :: ss => (c :: s) :: ss
      | [] => [[c]]

/-- Python `' '.join(args)`. -/
def joinSpace : List Str → Str
  | [] => []
  | [a] => a
  | a :: rest => a ++ ' ' :: joinSpace rest

/-- Python `str.strip()` (whitespace from both ends). -/
def trim (s : Str) : Str :=
  ((s.dropWhile isSpaceCh).reverse.dropWhile isSpaceCh).reverse

/-- Python `str.isdigit()` restricted to ASCII digits. -/
def isDigits (s : Str) : Bool := !s.isEmpty && s.all isDigitCh

/-- Python `int(s)` on a digit string. -/
def strToNat (s : Str) : Nat := s.foldl (fun acc c => acc * 10 + digitVal c) 0

/-- Python `str(n)` for a nonnegative integer. -/
def natToStr (n : Nat) : Str := (Nat.repr n).data

/-! ### Data model and bot state -/

/-- One row of the `tasks` table. -/
structure Task where
  id : Nat
  userId : Nat
  description : Str
  category : Str
  deadline : Str
  completed : Bool
deriving DecidableEq, Repr, Inhabited

/-- The `tasks` table together with the AUTOINCREMENT counter: a fresh
insert gets rowid `nextId`. -/
structure DB where
  tasks : List Task
  nextId : Nat
deriving DecidableEq, Repr

/-- One pending `job_queue.run_once` alarm, as registered by `add_task`
(`name = str(task_id)`, with chat/user ids and the message payload). -/
structure Alarm where
  name : Str
  chatId : Nat
  userId : Nat
  message : Str
  dataTaskId : Str
deriving DecidableEq, Repr

/-- The shared mutable state a command handler touches: the SQLite table
and the telegram `job_queue`. -/
structure BotState where
  db : DB
  jobs : List Alarm
deriving DecidableEq, Repr

/-- The replies `reply_text` can send, one constructor per distinct
message in `bot.py`. -/
inductive Reply where
  | addUsage
  | invalidDate
  | notFuture
  | added (id : Nat)
  | deleteUsage
  | deleteNotFound
  | deleted
  | completeUsage
  | completeNotFound
  | completedOk
  | listing (text : Str)
deriving DecidableEq, Repr

/-- Spec §7 taxonomy: which replies report a `ValidationError`. -/
def Reply.isValidation : Reply → Bool
  | .addUsage | .invalidDate | .notFuture
  | .deleteUsage | .completeUsage => true
  | _ => false

/-- Spec §7 taxonomy: which replies report a `NotFoundError`. -/
def Reply.isNotFound : Reply → Bool
  | .deleteNotFound | .completeNotFound => true
  | _ => false

/-- Observable side effects of one handler call, in program order. -/
inductive Event where
  | dbInsert (id : Nat)
  | schedule (id : Nat)
  | replySent
deriving DecidableEq, Repr

structure HandlerOut where
  state : BotState
  reply : Reply
  events : List Event
  warned : Bool
deriving DecidableEq, Repr

/-! ### `/add` (`add_task`, bot.py lines 83–157) -/

/-- The alarm registered by `add_task` for a fresh task. -/
def mkAlarm (taskId chatId userId : Nat) (description : Str) : Alarm :=
  { name := natToStr taskId
    chatId := chatId
    userId := userId
    message := "Reminder: Your task '".data ++ description ++ "' is due now!".data
    dataTaskId := natToStr taskId }

/-- `add_task(update, context)`: `args` is `context.args`, `now` the value
of `datetime.now()` at the validation instant. -/
def addTask (st : BotState) (now : DateTime) (userId chatId : Nat)
    (args : List Str) : HandlerOut :=
  match splitSemi (joinSpace args) with
  | [part0, part1, part2] =>
    let description := trim part0
    let category := trim part1
    let deadlineStr := trim part2
    match parseDT deadlineStr with
    | none => ⟨st, .invalidDate, [.replySent], false⟩
    | some deadline =>
      if key6 deadline ≤ key6 now then
        ⟨st, .notFuture, [.replySent], false⟩
      else
        let taskId := st.db.nextId
        let row : Task := ⟨taskId, userId, description, category, deadlineStr, false⟩
        ⟨⟨⟨st.db.tasks ++ [row], taskId + 1⟩,
          st.jobs ++ [mkAlarm taskId chatId userId description]⟩,
         .added taskId,
         [.dbInsert taskId, .schedule taskId, .replySent], false⟩
  | _ => ⟨st, .addUsage, [.replySent], false⟩

/-! ### `/delete` (`delete_task`, bot.py lines 160–222) -/

def deleteTask (st : BotState) (userId : Nat) (args : List Str) : HandlerOut :=
  match args with
  | [] => ⟨st, .deleteUsage, [.replySent], false⟩
  | a0 :: _ =>
    if !isDigits a0 then ⟨st, .deleteUsage, [.replySent], false⟩
    else
      let taskId := strToNat a0
      if st.db.tasks.any (fun t => t.userId = userId && t.id = taskId) then
        let tasks' := st.db.tasks.filter
          (fun t => !(t.id = taskId && t.userId = userId))
        let pending := st.jobs.filter (fun j => j.name = natToStr taskId)
        ⟨⟨⟨tasks', st.db.nextId⟩,
          st.jobs.filter (fun j => !(j.name = natToStr taskId))⟩,
         .deleted, [.replySent], pending.isEmpty⟩
      else
        ⟨st, .deleteNotFound, [.replySent], false⟩

/-! ### `/complete` (`mark_completed`, bot.py lines 225–281) -/

def markCompleted (st : BotState) (userId : Nat) (args : List Str) : HandlerOut :=
  match args with
  | [] => ⟨st, .completeUsage, [.replySent], false⟩
  | a0 :: _ =>
    if !isDigits a0 then ⟨st, .completeUsage, [.replySent], false⟩
    else
      let taskId := strToNat a0
      if st.db.tasks.any
          (fun t => t.userId = userId && t.id = taskId && t.completed = false) then
        let tasks' := st.db.tasks.map
          (fun t => if t.id = taskId && t.userId = userId then
                      { t with completed := true } else t)
        ⟨⟨⟨tasks', st.db.nextId⟩, st.jobs⟩, .completedOk, [.replySent], false⟩
      else
        ⟨st, .completeNotFound, [.replySent], false⟩

/-! ### `/list` (`list_tasks`, bot.py lines 284–327) -/

/-- `ORDER BY completed, deadline` sort key: incomplete (`0`) rows before
completed (`1`) rows, ties broken by BINARY-collation text comparison of
the stored deadline. -/
def rowLe (a b : Task) : Bool :=
  if a.completed = b.completed then lexLe a.deadline b.deadline
  else a.completed = false

def insertRow (x : Task) : List Task → List Task
  | [] => [x]
  | y :: ys => if rowLe x y then x :: y :: ys else y :: insertRow x ys

/-- A deterministic realisation of the SQL `ORDER BY completed, deadline`. -/
def sortRows : List Task → List Task
  | [] => []
  | x :: xs => insertRow x (sortRows xs)

/-- The rows `list_tasks` fetches for `userId`, in output order. -/
def listRows (st : BotState) (userId : Nat) : List Task :=
  sortRows (st.db.tasks.filter (fun t => t.userId = userId))

/-- One rendered task line:
`{id}: {desc} - {cat} - {True|False} - due by {deadline}`. -/
def renderRow (t : Task) : Str :=
  natToStr t.id ++ ": ".data ++ t.description ++ " - ".data ++ t.category ++
    " - ".data ++ (if t.completed then "True".data else "False".data) ++
    " - due by ".data ++ t.deadline

def listHeader : Str :=
  "id: description - category - completed - due by deadline\n".data

/-- The text `list_tasks` replies with. -/
def listTasksReply (st : BotState) (userId : Nat) : Str :=
  let rows := listRows st userId
  if rows.isEmpty then "No tasks found.".data
  else listHeader ++ List.intercalate "\n".data (rows.map renderRow)

/-! ### Daily sweep (`notify_due_tasks` and `run_notifiers`,
bot.py lines 329–383) -/

/-- The repository query of `notify_due_tasks`: stored deadline text
compared against `datetime('now','localtime')` and
`datetime('now','localtime','+24 hours')` under BINARY collation. -/
def dueQuery (now : DateTime) (tasks : List Task) : List Task :=
  tasks.filter (fun t =>
    lexLe (fmt19 now) t.deadline && lexLt t.deadline (fmt19 (add24h now)) &&
    t.completed = false)

/-- The delivery loop of `notify_due_tasks`: `sendFails t = true` means
`bot.send_message` raises for task `t`.  The exception propagates to the
handler that wraps the whole function body, so the loop stops right after
the first failing send; the returned list is the tasks for which a send
was attempted. -/
def attemptSends (sendFails : Task → Bool) : List Task → List Task
  | [] => []
  | t :: ts => if sendFails t then [t] else t :: attemptSends sendFails ts

/-- `notify_due_tasks(bot)`: which tasks get a send attempt in one sweep. -/
def notifyDueTasks (now : DateTime) (tasks : List Task)
    (sendFails : Task → Bool) : List Task :=
  attemptSends sendFails (dueQuery now tasks)

/-- `DAILY_REMINDER_START = "09:00:00"` parsed onto `now`'s date. -/
def reminderStartOf (n : DateTime) : DateTime :=
  ⟨n.year, n.month, n.day, 9, 0, 0⟩

/-- One iteration of the `run_notifiers` polling loop: given the
`reminded_today` flag and the observed `datetime.now()`, returns the new
flag and whether `notify_due_tasks` was invoked. -/
def sweepStep (reminded : Bool) (now : DateTime) : Bool × Bool :=
  if key6 (reminderStartOf now) ≤ key6 now && !reminded then (true, true)
  else if key6 now < key6 (reminderStartOf now) then (false, false)
  else (reminded, false)

/-- The observation times at which a run of the loop fires the sweep,
starting from flag state `reminded`. -/
def sweepFires (reminded : Bool) : List DateTime → List DateTime
  | [] => []
  | n :: ns =>
    if (sweepStep reminded n).2 then n :: sweepFires (sweepStep reminded n).1 ns
    else sweepFires (sweepStep reminded n).1 ns

/-- `run_notifiers` starts every process run with `reminded_today = False`
(bot.py line 368); a restart forgets whether today's sweep already ran. -/
def processRunFires (obs : List DateTime) : List DateTime :=
  sweepFires false obs

/-- Chronological instant of a stored deadline text (zero when the text
does not parse); used to state ordering claims about rendered output. -/
def chronKey (t : Task) : Nat :=
  match parseDT t.deadline with
  | some d => key6 d
  | none => 0

/-! ### Concrete instances used by counterexamples and witnesses -/

/-- A fresh store, as produced by `init_db` on an empty database. -/
def emptyState : BotState := ⟨⟨[], 1⟩, []⟩

def epoch : DateTime := ⟨2025, 1, 1, 0, 0, 0⟩

def c1now : DateTime := ⟨2025, 6, 10, 9, 30, 0⟩

def c1taskA : Task := ⟨1, 101, "A".data, "work".data, "2025-06-10 10:00".data, false⟩

def c1taskB : Task := ⟨2, 202, "B".data, "work".data, "2025-06-10 11:00".data, false⟩

/-- A reachable store holding a non-zero-padded September deadline
(accepted by the lenient parser) next to a padded October one. -/
def c2state : BotState :=
  (addTask (addTask emptyState epoch 7 9 ["Sep task; work; 2025-9-01 10:00".data]).state
    epoch 7 9 ["Oct task; work; 2025-10-01 09:00".data]).state

def c3now : DateTime := ⟨2025, 6, 10, 9, 0, 0⟩

def c3dl : DateTime := ⟨2025, 6, 10, 9, 0, 0⟩

def c3task : Task := ⟨1, 5, "write report".data, "work".data, "2025-06-10 09:00".data, false⟩

def c3dlUp : DateTime := ⟨2025, 6, 11, 9, 0, 0⟩

def c3taskUp : Task := ⟨2, 5, "file taxes".data, "home".data, "2025-06-11 09:00".data, false⟩

/-- A reachable store created by an `/add` whose description part is empty. -/
def c8state : BotState :=
  (addTask emptyState epoch 7 9 ["; work; 2030-01-01 10:00".data]).state

def c9day : DateTime := ⟨2025, 6, 10, 0, 0, 0⟩

/-- Observations of a first process run: one poll before 09:00, one after. -/
def c9run1 : List DateTime := [⟨2025, 6, 10, 8, 59, 0⟩, ⟨2025, 6, 10, 9, 0, 10⟩]

/-- Observation of a second process run started at 10:00 the same day. -/
def c9run2 : List DateTime := [⟨2025, 6, 10, 10, 0, 0⟩]

def wNow : DateTime := ⟨2025, 6, 10, 9, 0, 30⟩

def wDl : DateTime := ⟨2025, 6, 10, 20, 0, 0⟩

def wTask : Task := ⟨1, 5, "write report".data, "work".data, "2025-06-10 20:00".data, false⟩

/-- A one-task, one-alarm store used by witnesses for delete/complete. -/
def wState : BotState :=
  (addTask emptyState epoch 5 6 ["write report; work; 2025-06-10 20:00".data]).state

/-! ## Lemmas about the lexicographic comparison -/

theorem lexLt_irrefl (a : Str) : lexLt a a = false := by
  induction a with
  | nil => rfl
  | cons c cs ih => simp [lexLt, ih]

theorem lexLt_asymm {a b : Str} (h : lexLt a b = true) : lexLt b a = false := by
  induction a generalizing b with
  | nil =>
    cases b with
    | nil => simp [lexLt] at h
    | cons d ds => rfl
  | cons c cs ih =>
    cases b with
    | nil => simp [lexLt] at h
    | cons d ds =>
      simp only [lexLt] at h ⊢
      rcases lt_trichotomy c d with hcd | hcd | hcd
      · simp [hcd, not_lt_of_gt hcd]
      · subst hcd
        simp only [lt_irrefl, if_false] at h ⊢
        exact ih h
      · simp [hcd, not_lt_of_gt hcd] at h

theorem lexLt_conn {a b : Str} (h1 : lexLt a b = false) (h2 : lexLt b a = false) :
    a = b := by
  induction a generalizing b with
  | nil =>
    cases b with
    | nil => rfl
    | cons d ds => simp [lexLt] at h1
  | cons c cs ih =>
    cases b with
    | nil => simp [lexLt] at h2
    | cons d ds =>
      simp only [lexLt] at h1 h2
      rcases lt_trichotomy c d with hcd | hcd | hcd
      · simp [hcd] at h1
      · subst hcd
        simp only [lt_irrefl, if_false] at h1 h2
        rw [ih h1 h2]
      · simp [hcd] at h2

theorem lexLt_trans {a b c : Str} (h1 : lexLt a b = true) (h2 : lexLt b c = true) :
    lexLt a c = true := by
  induction a generalizing b c with
  | nil =>
    cases c with
    | nil =>
      cases b with
      | nil => exact h1
      | cons d ds => simp [lexLt] at h2
    | cons e es => rfl
  | cons x xs ih =>
    cases b with
    | nil => simp [lexLt] at h1
    | cons y ys =>
      cases c with
      | nil => simp [lexLt] at h2
      | cons z zs =>
        simp only [lexLt] at h1 h2 ⊢
        rcases lt_trichotomy x y with hxy | hxy | hxy
        · rcases lt_trichotomy y z with hyz | hyz | hyz
          · simp [lt_trans hxy hyz, not_lt_of_gt (lt_trans hxy hyz)]
          · subst hyz; simp [hxy, not_lt_of_gt hxy]
          · simp [hyz, not_lt_of_gt hyz] at h2
        · subst hxy
          simp only [lt_irrefl, if_false] at h1
          rcases lt_trichotomy x z with hxz | hxz | hxz
          · simp [hxz, not_lt_of_gt hxz]
          · subst hxz
            simp only [lt_irrefl, if_false] at h2 ⊢
            exact ih h1 h2
          · simp [hxz, not_lt_of_gt hxz] at h2
        · simp [hxy, not_lt_of_gt hxy] at h1

theorem lexLt_append {as bs : Str} (xs ys : Str) (h : as.length = bs.length) :
    lexLt (as ++ xs) (bs ++ ys) =
      (if as = bs then lexLt xs ys else lexLt as bs) := by
  induction as generalizing bs with
  | nil =>
    cases bs with
    | nil => simp
    | cons d ds => simp at h
  | cons c cs ih =>
    cases bs with
    | nil => simp at h
    | cons d ds =>
      simp only [List.length_cons, Nat.add_right_cancel_iff] at h
      rcases lt_trichotomy c d with hcd | hcd | hcd
      · simp [lexLt, hcd, ne_of_lt hcd]
      · subst hcd
        have h2 := @ih ds h
        simp only [List.cons_append, lexLt, lt_irrefl, if_false, List.cons.injEq,
          true_and]
        exact h2
      · simp [lexLt, hcd, not_lt_of_gt hcd, (ne_of_lt hcd).symm]

theorem lexLt_self_append {a : Str} {xs : Str} (h : xs ≠ []) :
    lexLt a (a ++ xs) = true := by
  induction a with
  | nil => cases xs with
    | nil => exact absurd rfl h
    | cons c cs => rfl
  | cons c cs ih => simpa [lexLt] using ih

/-! ## Digit and zero-padded-number lemmas -/

theorem digitChar_lt_iff : ∀ a, a < 10 → ∀ b, b < 10 →
    ((digitChar a < digitChar b) ↔ a < b) := by decide

theorem digitChar_inj : ∀ a, a < 10 → ∀ b, b < 10 →
    digitChar a = digitChar b → a = b := by decide

theorem pad2_lt {a b : Nat} (ha : a < 100) (hb : b < 100) :
    lexLt (pad2 a) (pad2 b) = decide (a < b) := by
  have ha1 : a / 10 < 10 := by omega
  have hb1 : b / 10 < 10 := by omega
  have ha2 : a % 10 < 10 := by omega
  have hb2 : b % 10 < 10 := by omega
  simp only [pad2, lexLt]
  rcases lt_trichotomy (a / 10) (b / 10) with hq | hq | hq
  · have : digitChar (a / 10) < digitChar (b / 10) :=
      (digitChar_lt_iff _ ha1 _ hb1).mpr hq
    simp only [this, if_true]
    have hab : a < b := by omega
    simp [hab]
  · rw [hq]
    simp only [lt_irrefl, if_false]
    rcases lt_trichotomy (a % 10) (b % 10) with hr | hr | hr
    · have : digitChar (a % 10) < digitChar (b % 10) :=
        (digitChar_lt_iff _ ha2 _ hb2).mpr hr
      simp only [this, if_true]
      have hab : a < b := by omega
      simp [hab]
    · rw [hr]
      simp only [lt_irrefl, if_false]
      have hab : ¬ a < b := by omega
      simp [hab]
    · have h1 : ¬ digitChar (a % 10) < digitChar (b % 10) := by
        intro hc
        exact absurd ((digitChar_lt_iff _ ha2 _ hb2).mp hc) (by omega)
      have h2 : digitChar (b % 10) < digitChar (a % 10) :=
        (digitChar_lt_iff _ hb2 _ ha2).mpr hr
      simp only [h1, if_false, h2, if_true]
      have hab : ¬ a < b := by omega
      simp [hab]
  · have h1 : ¬ digitChar (a / 10) < digitChar (b / 10) := by
      intro hc
      exact absurd ((digitChar_lt_iff _ ha1 _ hb1).mp hc) (by omega)
    have h2 : digitChar (b / 10) < digitChar (a / 10) :=
      (digitChar_lt_iff _ hb1 _ ha1).mpr hq
    simp only [h1, if_false, h2, if_true]
    have hab : ¬ a < b := by omega
    simp [hab]

theorem pad2_inj {a b : Nat} (ha : a < 100) (hb : b < 100)
    (h : pad2 a = pad2 b) : a = b := by
  have h1 : lexLt (pad2 a) (pad2 b) = false := by rw [h]; exact lexLt_irrefl _
  have h2 : lexLt (pad2 b) (pad2 a) = false := by rw [h]; exact lexLt_irrefl _
  rw [pad2_lt ha hb] at h1
  rw [pad2_lt hb ha] at h2
  simp only [decide_eq_false_iff_not] at h1 h2
  omega

theorem pad2_length (a : Nat) : (pad2 a).length = 2 := rfl

theorem pad4_lt {a b : Nat} (ha : a < 10000) (hb : b < 10000) :
    lexLt (pad4 a) (pad4 b) = decide (a < b) := by
  have ha1 : a / 100 < 100 := by omega
  have hb1 : b / 100 < 100 := by omega
  have ha2 : a % 100 < 100 := by omega
  have hb2 : b % 100 < 100 := by omega
  simp only [pad4]
  rw [lexLt_append _ _ (by simp [pad2_length])]
  by_cases hq : a / 100 = b / 100
  · rw [hq, if_pos rfl, pad2_lt ha2 hb2]
    have : a < b ↔ a % 100 < b % 100 := by omega
    simp [this]
  · have hne : pad2 (a / 100) ≠ pad2 (b / 100) := fun hc =>
      hq (pad2_inj ha1 hb1 hc)
    rw [if_neg hne, pad2_lt ha1 hb1]
    have : a < b ↔ a / 100 < b / 100 := by omega
    simp [this]

theorem pad4_inj {a b : Nat} (ha : a < 10000) (hb : b < 10000)
    (h : pad4 a = pad4 b) : a = b := by
  have h1 : lexLt (pad4 a) (pad4 b) = false := by rw [h]; exact lexLt_irrefl _
  have h2 : lexLt (pad4 b) (pad4 a) = false := by rw [h]; exact lexLt_irrefl _
  rw [pad4_lt ha hb] at h1
  rw [pad4_lt hb ha] at h2
  simp only [decide_eq_false_iff_not] at h1 h2
  omega

theorem pad4_length (a : Nat) : (pad4 a).length = 4 := rfl

/-! ## Formatted datetimes compare like their field tuples -/

/-- Field bounds under which zero-padded rendering is faithful. -/
def BoundedDT (d : DateTime) : Prop :=
  d.year < 10000 ∧ d.month < 100 ∧ d.day < 100 ∧ d.hour < 100 ∧
  d.minute < 100 ∧ d.second < 100

theorem validDT_bounded {d : DateTime} (h : ValidDT d) : BoundedDT d := by
  obtain ⟨h1, h2, h3, h4, h5, h6, h7, h8, h9⟩ := h
  exact ⟨by omega, by omega, by omega, by omega, by omega, by omega⟩

theorem lexLt_cons_same (c : Char) (as bs : Str) :
    lexLt (c :: as) (c :: bs) = lexLt as bs := by
  simp [lexLt]

theorem fmt16_length (d : DateTime) : (fmt16 d).length = 16 := by
  simp [fmt16, pad2, pad4]

theorem fmt16_lt {a b : DateTime} (ha : BoundedDT a) (hb : BoundedDT b) :
    lexLt (fmt16 a) (fmt16 b) = decide (key5 a < key5 b) := by
  obtain ⟨hay, ham, had, hah, hai, -⟩ := ha
  obtain ⟨hby, hbm, hbd, hbh, hbi, -⟩ := hb
  simp only [fmt16]
  rw [lexLt_append _ _ (by simp [pad4_length])]
  by_cases hy : a.year = b.year
  · rw [if_pos (by rw [hy]), lexLt_cons_same]
    rw [lexLt_append _ _ (by simp [pad2_length])]
    by_cases hm : a.month = b.month
    · rw [if_pos (by rw [hm]), lexLt_cons_same]
      rw [lexLt_append _ _ (by simp [pad2_length])]
      by_cases hd : a.day = b.day
      · rw [if_pos (by rw [hd]), lexLt_cons_same]
        rw [lexLt_append _ _ (by simp [pad2_length])]
        by_cases hh : a.hour = b.hour
        · rw [if_pos (by rw [hh]), lexLt_cons_same, pad2_lt hai hbi]
          refine decide_eq_decide.mpr ?_
          simp only [key5, dateKey]
          omega
        · rw [if_neg (fun hc => hh (pad2_inj hah hbh hc)), pad2_lt hah hbh]
          refine decide_eq_decide.mpr ?_
          simp only [key5, dateKey]
          omega
      · rw [if_neg (fun hc => hd (pad2_inj had hbd hc)), pad2_lt had hbd]
        refine decide_eq_decide.mpr ?_
        simp only [key5, dateKey]
        omega
    · rw [if_neg (fun hc => hm (pad2_inj ham hbm hc)), pad2_lt ham hbm]
      refine decide_eq_decide.mpr ?_
      simp only [key5, dateKey]
      omega
  · rw [if_neg (fun hc => hy (pad4_inj hay hby hc)), pad4_lt hay hby]
    refine decide_eq_decide.mpr ?_
    simp only [key5, dateKey]
    omega

theorem fmt16_eq_iff {a b : DateTime} (ha : BoundedDT a) (hb : BoundedDT b) :
    fmt16 a = fmt16 b ↔ key5 a = key5 b := by
  constructor
  · intro h
    have h1 : lexLt (fmt16 a) (fmt16 b) = false := by rw [h]; exact lexLt_irrefl _
    have h2 : lexLt (fmt16 b) (fmt16 a) = false := by rw [h]; exact lexLt_irrefl _
    rw [fmt16_lt ha hb] at h1
    rw [fmt16_lt hb ha] at h2
    simp only [decide_eq_false_iff_not] at h1 h2
    omega
  · intro h
    obtain ⟨hay, ham, had, hah, hai, -⟩ := ha
    obtain ⟨hby, hbm, hbd, hbh, hbi, -⟩ := hb
    have hy : a.year = b.year := by simp only [key5, dateKey] at h; omega
    have hm : a.month = b.month := by simp only [key5, dateKey] at h; omega
    have hd : a.day = b.day := by simp only [key5, dateKey] at h; omega
    have hh : a.hour = b.hour := by simp only [key5, dateKey] at h; omega
    have hi : a.minute = b.minute := by simp only [key5, dateKey] at h; omega
    simp [fmt16, hy, hm, hd, hh, hi]

/-- The central collation fact: a 16-character stored deadline compared
against a 19-character `datetime()` string under BINARY collation is
`<` exactly when the deadline's minute key is at most the other side's
minute key — in particular a deadline equal to the minute-truncation of
the other side compares strictly *below* it (prefix rule). -/
theorem lexLt_fmt16_fmt19 {d n : DateTime} (hd : BoundedDT d) (hn : BoundedDT n) :
    lexLt (fmt16 d) (fmt19 n) = decide (key5 d ≤ key5 n) := by
  have hsplit : fmt16 d = fmt16 d ++ ([] : Str) := by simp
  rw [fmt19, hsplit, lexLt_append _ _ (by rw [fmt16_length, fmt16_length])]
  by_cases he : fmt16 d = fmt16 n
  · rw [if_pos he]
    have : key5 d = key5 n := (fmt16_eq_iff hd hn).mp he
    simp [lexLt, this]
  · rw [if_neg he, fmt16_lt hd hn]
    refine decide_eq_decide.mpr ?_
    have : key5 d ≠ key5 n := fun hc => he ((fmt16_eq_iff hd hn).mpr hc)
    omega

theorem key5_floorMin (n : DateTime) : key5 (floorMin n) = key5 n := rfl

theorem key6_eq (d : DateTime) : key6 d = key5 d * 100 + d.second := rfl

theorem add24h_second (d : DateTime) : (add24h d).second = d.second := by
  unfold add24h
  split
  · rfl
  · split <;> rfl

/-- Membership in the sweep's repository query, for a task whose stored
deadline is a canonically formatted minute-granularity text. -/
theorem mem_dueQuery {now d : DateTime} (tasks : List Task) (t : Task)
    (hnow : BoundedDT now) (hup : BoundedDT (add24h now))
    (hd : BoundedDT d) (hcanon : t.deadline = fmt16 d) :
    t ∈ dueQuery now tasks ↔
      t ∈ tasks ∧ t.completed = false ∧
      key5 now < key5 d ∧ key5 d ≤ key5 (add24h now) := by
  simp only [dueQuery, List.mem_filter, Bool.and_eq_true, decide_eq_true_eq]
  rw [hcanon, lexLe, lexLt_fmt16_fmt19 hd hnow, lexLt_fmt16_fmt19 hd hup]
  simp only [Bool.not_eq_eq_eq_not, Bool.not_true, decide_eq_false_iff_not,
    not_le, decide_eq_true_eq]
  tauto

/-! ## `ORDER BY completed, deadline`: permutation and sortedness -/

theorem rowLe_total (a b : Task) : rowLe a b = true ∨ rowLe b a = true := by
  by_cases hc : a.completed = b.completed
  · simp only [rowLe, hc, if_pos rfl, if_pos hc.symm, lexLe]
    rcases h : lexLt b.deadline a.deadline with hf | ht
    · left; simp
    · right; simp [lexLt_asymm h]
  · simp only [rowLe, if_neg hc, if_neg (Ne.symm hc), decide_eq_true_eq]
    cases ha : a.completed
    · left; rfl
    · right
      cases hb : b.completed
      · rfl
      · exact absurd (ha.trans hb.symm) hc

theorem lexLe_trans {a b c : Str} (h1 : lexLe a b = true) (h2 : lexLe b c = true) :
    lexLe a c = true := by
  simp only [lexLe, Bool.not_eq_eq_eq_not, Bool.not_true] at h1 h2 ⊢
  cases hca : lexLt c a with
  | false => rfl
  | true =>
    cases hbc : lexLt b c with
    | false =>
      have := lexLt_conn h2 hbc
      subst this
      rw [hca] at h1
      exact h1
    | true =>
      have := lexLt_trans hbc hca
      rw [this] at h1
      exact h1

theorem rowLe_trans {a b c : Task} (h1 : rowLe a b = true) (h2 : rowLe b c = true) :
    rowLe a c = true := by
  by_cases hab : a.completed = b.completed
  · by_cases hbc : b.completed = c.completed
    · rw [rowLe, if_pos hab] at h1
      rw [rowLe, if_pos hbc] at h2
      rw [rowLe, if_pos (hab.trans hbc)]
      exact lexLe_trans h1 h2
    · rw [rowLe, if_neg hbc, decide_eq_true_eq] at h2
      rw [rowLe, if_neg (fun hc => hbc ((hab.symm.trans hc)))]
      simp [hab.trans h2]
  · rw [rowLe, if_neg hab, decide_eq_true_eq] at h1
    by_cases hbc : b.completed = c.completed
    · rw [rowLe, if_neg (fun hc => hab (hc.trans hbc.symm))]
      simp [h1]
    · rw [rowLe, if_neg hbc, decide_eq_true_eq] at h2
      cases hb : b.completed
      · exact absurd (h1.trans hb.symm) hab
      · rw [hb] at h2
        simp at h2

theorem insertRow_perm (x : Task) (l : List Task) :
    List.Perm (insertRow x l) (x :: l) := by
  induction l with
  | nil => exact List.Perm.refl _
  | cons y ys ih =>
    simp only [insertRow]
    by_cases h : rowLe x y = true
    · simp only [h, if_true]
      exact List.Perm.refl _
    · simp only [h, if_false]
      exact (ih.cons y).trans (List.Perm.swap x y ys)

theorem sortRows_perm (l : List Task) : List.Perm (sortRows l) l := by
  induction l with
  | nil => exact List.Perm.refl _
  | cons y ys ih =>
    exact (insertRow_perm y (sortRows ys)).trans (ih.cons y)

theorem insertRow_pairwise {x : Task} {l : List Task}
    (hl : l.Pairwise (fun u v => rowLe u v = true)) :
    (insertRow x l).Pairwise (fun u v => rowLe u v = true) := by
  induction l with
  | nil => simp [insertRow]
  | cons y ys ih =>
    rw [List.pairwise_cons] at hl
    obtain ⟨hy, hys⟩ := hl
    simp only [insertRow]
    by_cases h : rowLe x y = true
    · simp only [h, if_true]
      refine List.pairwise_cons.mpr ⟨?_, List.pairwise_cons.mpr ⟨hy, hys⟩⟩
      intro z hz
      rcases List.mem_cons.mp hz with hz | hz
      · exact hz ▸ h
      · exact rowLe_trans h (hy z hz)
    · simp only [h, if_false]
      refine List.pairwise_cons.mpr ⟨?_, ih hys⟩
      intro z hz
      rcases List.mem_cons.mp ((insertRow_perm x ys).mem_iff.mp hz) with hz2 | hz2
      · subst hz2
        rcases rowLe_total y z with ht | ht
        · exact ht
        · exact absurd ht h
      · exact hy z hz2

theorem sortRows_pairwise (l : List Task) :
    (sortRows l).Pairwise (fun u v => rowLe u v = true) := by
  induction l with
  | nil => simp [sortRows]
  | cons y ys ih => exact insertRow_pairwise ih

/-! ## The daily sweep loop fires at most once per calendar day -/

theorem sweepStep_fire {n : DateTime} (h : key6 (reminderStartOf n) ≤ key6 n) :
    sweepStep false n = (true, true) := by
  simp [sweepStep, h]

theorem sweepStep_hold {n : DateTime} (h : key6 (reminderStartOf n) ≤ key6 n) :
    sweepStep true n = (true, false) := by
  simp [sweepStep, Nat.not_lt.mpr h]

theorem sweepStep_reset {n : DateTime} (r : Bool)
    (h : key6 n < key6 (reminderStartOf n)) :
    sweepStep r n = (false, false) := by
  simp [sweepStep, Nat.not_le.mpr h, h]

theorem sweepFires_subset {r : Bool} {ts : List DateTime} {m : DateTime}
    (h : m ∈ sweepFires r ts) : m ∈ ts := by
  induction ts generalizing r with
  | nil => simp [sweepFires] at h
  | cons n ns ih =>
    simp only [sweepFires] at h
    by_cases hs : (sweepStep r n).2 = true
    · rw [if_pos hs] at h
      rcases List.mem_cons.mp h with h2 | h2
      · exact h2 ▸ List.mem_cons_self n ns
      · exact List.mem_cons_of_mem n (ih h2)
    · rw [if_neg hs] at h
      exact List.mem_cons_of_mem n (ih h)

theorem dateKey_le_of_key6_le {a b : DateTime} (ha : BoundedDT a)
    (hb : BoundedDT b) (h : key6 a ≤ key6 b) : dateKey a ≤ dateKey b := by
  obtain ⟨-, -, -, ha4, ha5, ha6⟩ := ha
  obtain ⟨-, -, -, hb4, hb5, hb6⟩ := hb
  simp only [key6, key5] at h
  omega

theorem key6_reminderStartOf (n : DateTime) :
    key6 (reminderStartOf n) = ((dateKey n * 100 + 9) * 100) * 100 := by
  simp [key6, key5, dateKey, reminderStartOf]

/-- Once the flag is set by a fire, every later fire of the same loop run
happens on a strictly later calendar day (observation times are
nondecreasing). -/
theorem fires_true_dates_gt {n : DateTime} {ts : List DateTime}
    (hb : BoundedDT n)
    (hrs : key6 (reminderStartOf n) ≤ key6 n)
    (hts : ∀ x ∈ ts, BoundedDT x ∧ key6 n ≤ key6 x)
    (hpair : ts.Pairwise (fun a b => key6 a ≤ key6 b)) :
    ∀ m ∈ sweepFires true ts, dateKey n < dateKey m := by
  induction ts with
  | nil => intro m hm; simp [sweepFires] at hm
  | cons x xs ih =>
    obtain ⟨hbx, hnx⟩ := hts x (List.mem_cons_self x xs)
    rw [List.pairwise_cons] at hpair
    obtain ⟨hx_le, hpair'⟩ := hpair
    intro m hm
    by_cases hreset : key6 x < key6 (reminderStartOf x)
    · rw [show sweepFires true (x :: xs) = sweepFires false xs from by
            simp [sweepFires, sweepStep_reset true hreset]] at hm
      have hdn_lt_dx : dateKey n < dateKey x := by
        have hd1 : dateKey n ≤ dateKey x := dateKey_le_of_key6_le hb hbx hnx
        rcases Nat.lt_or_ge (dateKey n) (dateKey x) with hlt | hge
        · exact hlt
        · exfalso
          have heq : dateKey n = dateKey x := Nat.le_antisymm hd1 hge
          have hfx := key6_reminderStartOf x
          have hfn := key6_reminderStartOf n
          omega
      have hm_ts : m ∈ xs := sweepFires_subset hm
      obtain ⟨hbm, -⟩ := hts m (List.mem_cons_of_mem x hm_ts)
      exact Nat.lt_of_lt_of_le hdn_lt_dx
        (dateKey_le_of_key6_le hbx hbm (hx_le m hm_ts))
    · rw [show sweepFires true (x :: xs) = sweepFires true xs from by
            simp [sweepFires, sweepStep_hold (Nat.not_lt.mp hreset)]] at hm
      exact ih (fun z hz => hts z (List.mem_cons_of_mem x hz)) hpair' m hm

/-- Within one run of the polling loop (any starting flag state, times
nondecreasing), the sweep fires at most once per calendar day. -/
theorem sweepFires_once_per_day (r : Bool) (ts : List DateTime)
    (hts : ∀ x ∈ ts, BoundedDT x)
    (hpair : ts.Pairwise (fun a b => key6 a ≤ key6 b)) (D : Nat) :
    (sweepFires r ts).countP (fun m => dateKey m = D) ≤ 1 := by
  induction ts generalizing r with
  | nil => simp [sweepFires]
  | cons x xs ih =>
    rw [List.pairwise_cons] at hpair
    obtain ⟨hx_le, hpair'⟩ := hpair
    have hbx := hts x (List.mem_cons_self x xs)
    have hts' : ∀ z ∈ xs, BoundedDT z := fun z hz => hts z (List.mem_cons_of_mem x hz)
    by_cases hreset : key6 x < key6 (reminderStartOf x)
    · rw [show sweepFires r (x :: xs) = sweepFires false xs from by
            simp [sweepFires, sweepStep_reset r hreset]]
      exact ih false hts' hpair'
    · have hrs : key6 (reminderStartOf x) ≤ key6 x := Nat.not_lt.mp hreset
      cases r with
      | true =>
        rw [show sweepFires true (x :: xs) = sweepFires true xs from by
              simp [sweepFires, sweepStep_hold hrs]]
        exact ih true hts' hpair'
      | false =>
        rw [show sweepFires false (x :: xs) = x :: sweepFires true xs from by
              simp [sweepFires, sweepStep_fire hrs]]
        rw [List.countP_cons]
        by_cases hD : dateKey x = D
        · have hzero : (sweepFires true xs).countP (fun m => dateKey m = D) = 0 := by
            rw [List.countP_eq_zero]
            intro m hm
            have hgt := fires_true_dates_gt hbx hrs
              (fun z hz => ⟨hts' z hz, hx_le z hz⟩) hpair' m hm
            simp only [decide_eq_true_eq]
            omega
          simp [hzero, hD]
        · have hrest := ih true hts' hpair'
          have hpx : (decide (dateKey x = D)) = false := by simp [hD]
          rw [hpx]
          simpa using hrest

/-- A freshly (re)started loop run fires on its very first observation at
or past the daily reminder time, regardless of what happened before the
restart. -/
theorem processRunFires_head {n : DateTime} (obs : List DateTime)
    (h : key6 (reminderStartOf n) ≤ key6 n) :
    n ∈ processRunFires (n :: obs) := by
  simp [processRunFires, sweepFires, sweepStep_fire h]

theorem bounded_add24h {d : DateTime} (h : ValidDT d) (hy : d.year ≤ 9998) :
    BoundedDT (add24h d) := by
  obtain ⟨h1, h2, h3, h4, h5, h6, h7, h8, h9⟩ := h
  unfold add24h
  split
  · exact ⟨show d.year < 10000 by omega, show d.month < 100 by omega,
      show d.day + 1 < 100 by omega, show d.hour < 100 by omega,
      show d.minute < 100 by omega, show d.second < 100 by omega⟩
  · split
    · exact ⟨show d.year < 10000 by omega, show d.month + 1 < 100 by omega,
        show (1 : Nat) < 100 by omega, show d.hour < 100 by omega,
        show d.minute < 100 by omega, show d.second < 100 by omega⟩
    · exact ⟨show d.year + 1 < 10000 by omega, show (1 : Nat) < 100 by omega,
        show (1 : Nat) < 100 by omega, show d.hour < 100 by omega,
        show d.minute < 100 by omega, show d.second < 100 by omega⟩

/-! ## Case equations for the command handlers -/

theorem addTask_eq_usage {st : BotState} {now : DateTime} {uid cid : Nat}
    {args : List Str} (h : (splitSemi (joinSpace args)).length ≠ 3) :
    addTask st now uid cid args = ⟨st, .addUsage, [.replySent], false⟩ := by
  rcases hs : splitSemi (joinSpace args) with - | ⟨p0, - | ⟨p1, - | ⟨p2, - | ⟨p3, ps⟩⟩⟩⟩
  · simp [addTask, hs]
  · simp [addTask, hs]
  · simp [addTask, hs]
  · exact absurd (by rw [hs]; rfl) h
  · simp [addTask, hs]

theorem addTask_eq_invalid {st : BotState} {now : DateTime} {uid cid : Nat}
    {args : List Str} {d0 c0 dl0 : Str}
    (hs : splitSemi (joinSpace args) = [d0, c0, dl0])
    (hp : parseDT (trim dl0) = none) :
    addTask st now uid cid args = ⟨st, .invalidDate, [.replySent], false⟩ := by
  simp [addTask, hs, hp]

theorem addTask_eq_notFuture {st : BotState} {now : DateTime} {uid cid : Nat}
    {args : List Str} {d0 c0 dl0 : Str} {dl : DateTime}
    (hs : splitSemi (joinSpace args) = [d0, c0, dl0])
    (hp : parseDT (trim dl0) = some dl)
    (hle : key6 dl ≤ key6 now) :
    addTask st now uid cid args = ⟨st, .notFuture, [.replySent], false⟩ := by
  simp [addTask, hs, hp, hle]

theorem addTask_eq_success {st : BotState} {now : DateTime} {uid cid : Nat}
    {args : List Str} {d0 c0 dl0 : Str} {dl : DateTime}
    (hs : splitSemi (joinSpace args) = [d0, c0, dl0])
    (hp : parseDT (trim dl0) = some dl)
    (hgt : key6 now < key6 dl) :
    addTask st now uid cid args =
      ⟨⟨⟨st.db.tasks ++
          [⟨st.db.nextId, uid, trim d0, trim c0, trim dl0, false⟩],
         st.db.nextId + 1⟩,
        st.jobs ++ [mkAlarm st.db.nextId cid uid (trim d0)]⟩,
       .added st.db.nextId,
       [.dbInsert st.db.nextId, .schedule st.db.nextId, .replySent], false⟩ := by
  simp [addTask, hs, hp, Nat.not_le.mpr hgt]

theorem deleteTask_eq_found {st : BotState} {uid : Nat} {a : Str}
    {rest : List Str} (hd : isDigits a = true)
    (hex : st.db.tasks.any
      (fun t => t.userId = uid && t.id = strToNat a) = true) :
    deleteTask st uid (a :: rest) =
      ⟨⟨⟨st.db.tasks.filter
           (fun t => !(t.id = strToNat a && t.userId = uid)), st.db.nextId⟩,
         st.jobs.filter (fun j => !(j.name = natToStr (strToNat a)))⟩,
       .deleted, [.replySent],
       (st.jobs.filter (fun j => j.name = natToStr (strToNat a))).isEmpty⟩ := by
  simp [deleteTask, hd, hex]

theorem deleteTask_eq_notFound {st : BotState} {uid : Nat} {a : Str}
    {rest : List Str} (hd : isDigits a = true)
    (hex : st.db.tasks.any
      (fun t => t.userId = uid && t.id = strToNat a) = false) :
    deleteTask st uid (a :: rest) = ⟨st, .deleteNotFound, [.replySent], false⟩ := by
  simp [deleteTask, hd, hex]

theorem markCompleted_eq_found {st : BotState} {uid : Nat} {a : Str}
    {rest : List Str} (hd : isDigits a = true)
    (hex : st.db.tasks.any
      (fun t => t.userId = uid && t.id = strToNat a && t.completed = false) = true) :
    markCompleted st uid (a :: rest) =
      ⟨⟨⟨st.db.tasks.map
           (fun t => if t.id = strToNat a && t.userId = uid then
                       { t with completed := true } else t), st.db.nextId⟩,
         st.jobs⟩,
       .completedOk, [.replySent], false⟩ := by
  simp only [markCompleted]
  rw [if_neg (by simp [hd]), if_pos hex]

theorem markCompleted_eq_notFound {st : BotState} {uid : Nat} {a : Str}
    {rest : List Str} (hd : isDigits a = true)
    (hex : st.db.tasks.any
      (fun t => t.userId = uid && t.id = strToNat a && t.completed = false) = false) :
    markCompleted st uid (a :: rest) = ⟨st, .completeNotFound, [.replySent], false⟩ := by
  simp only [markCompleted]
  rw [if_neg (by simp [hd]), if_neg (by rw [hex]; simp)]

/-! ## Split pieces contain no separator; trimming only removes characters -/

theorem splitSemi_no_semi : ∀ {s p : Str}, p ∈ splitSemi s → ';' ∉ p := by
  intro s
  induction s with
  | nil =>
    intro p hp
    simp only [splitSemi, List.mem_singleton] at hp
    subst hp
    simp
  | cons c cs ih =>
    intro p hp
    simp only [splitSemi] at hp
    by_cases hc : c = ';'
    · rw [if_pos hc] at hp
      rcases List.mem_cons.mp hp with h | h
      · subst h; simp
      · exact ih h
    · rw [if_neg hc] at hp
      cases hsp : splitSemi cs with
      | nil =>
        rw [hsp] at hp
        simp only [List.mem_singleton] at hp
        subst hp
        intro hmem
        rcases List.mem_cons.mp hmem with h2 | h2
        · exact hc h2.symm
        · simp at h2
      | cons s0 ss =>
        rw [hsp] at hp
        rcases List.mem_cons.mp hp with h | h
        · subst h
          intro hmem
          rcases List.mem_cons.mp hmem with h2 | h2
          · exact hc h2.symm
          · exact ih (hsp ▸ List.mem_cons_self s0 ss) h2
        · exact ih (hsp ▸ List.mem_cons_of_mem s0 h)

theorem mem_trim {c : Char} {s : Str} (h : c ∈ trim s) : c ∈ s := by
  unfold trim at h
  rw [List.mem_reverse] at h
  have h2 : c ∈ (s.dropWhile isSpaceCh).reverse :=
    (List.dropWhile_sublist isSpaceCh).subset h
  rw [List.mem_reverse] at h2
  exact (List.dropWhile_sublist isSpaceCh).subset h2

/-! ## Claim theorems -/

/-- **C1.** The claim says a send failure for one due task must not prevent
delivery attempts for the remaining due tasks of the same sweep.  In
`notify_due_tasks` the whole delivery loop sits inside one `try`/`except`,
so the first raising `send_message` aborts the sweep: with two due tasks
and a send failure on the first, the second task never gets a send
attempt.  This theorem evaluates the embedded code at that failing
input. -/
theorem claim_C1_send_failure_aborts_sweep :
    dueQuery c1now [c1taskA, c1taskB] = [c1taskA, c1taskB] ∧
    notifyDueTasks c1now [c1taskA, c1taskB] (fun t => t.id = 1) = [c1taskA] ∧
    c1taskB ∉ notifyDueTasks c1now [c1taskA, c1taskB] (fun t => t.id = 1) := by
  decide

/-- **C4.** An add request whose (three-part) deadline text does not parse
in `%Y-%m-%d %H:%M`, or parses to an instant not strictly after `now`,
leaves the whole state (rows and alarms) unchanged, produces no insert or
schedule event, and is answered with the specific validation reply
(`Invalid date format…` resp. `The deadline must be in the future.`),
i.e. a `ValidationError`. -/
theorem claim_C4_invalid_add_rejected (st : BotState) (now : DateTime)
    (uid cid : Nat) (args : List Str) (d0 c0 dl0 : Str)
    (hs : splitSemi (joinSpace args) = [d0, c0, dl0])
    (hbad : parseDT (trim dl0) = none ∨
      ∃ dl, parseDT (trim dl0) = some dl ∧ key6 dl ≤ key6 now) :
    (addTask st now uid cid args).state = st ∧
    (addTask st now uid cid args).events = [.replySent] ∧
    (addTask st now uid cid args).reply.isValidation = true ∧
    (parseDT (trim dl0) = none →
      (addTask st now uid cid args).reply = .invalidDate) ∧
    (∀ dl, parseDT (trim dl0) = some dl → key6 dl ≤ key6 now →
      (addTask st now uid cid args).reply = .notFuture) := by
  rcases hbad with hp | ⟨dl, hp, hle⟩
  · rw [addTask_eq_invalid hs hp]
    refine ⟨rfl, rfl, rfl, fun _ => rfl, ?_⟩
    intro dl hdl
    rw [hp] at hdl
    simp at hdl
  · rw [addTask_eq_notFuture hs hp hle]
    refine ⟨rfl, rfl, rfl, ?_, fun dl2 hdl2 hle2 => rfl⟩
    intro hn
    rw [hp] at hn
    simp at hn

theorem claim_C4_witness :
    (addTask emptyState epoch 7 9 ["meet Ann; work; nonsense".data]).state = emptyState ∧
    (addTask emptyState epoch 7 9 ["meet Ann; work; nonsense".data]).reply = .invalidDate := by
  have h := claim_C4_invalid_add_rejected emptyState epoch 7 9
    ["meet Ann; work; nonsense".data] "meet Ann".data " work".data " nonsense".data
    (by decide) (Or.inl (by decide))
  exact ⟨h.1, h.2.2.2.1 (by decide)⟩

/-- **C5.** A valid add request (three parts, parseable deadline strictly
after `now`) appends exactly one row — carrying the fresh id
`st.db.nextId` and `completed = false` — bumps the id counter, registers
exactly one alarm whose job-queue name is the string of that fresh id,
replies with the fresh id, and emits the row insert strictly before the
alarm registration (persist-then-schedule). -/
theorem claim_C5_valid_add (st : BotState) (now : DateTime) (uid cid : Nat)
    (args : List Str) (d0 c0 dl0 : Str) (dl : DateTime)
    (hs : splitSemi (joinSpace args) = [d0, c0, dl0])
    (hp : parseDT (trim dl0) = some dl)
    (hgt : key6 now < key6 dl)
    (hids : ∀ t ∈ st.db.tasks, t.id < st.db.nextId) :
    (addTask st now uid cid args).state.db.tasks =
      st.db.tasks ++ [⟨st.db.nextId, uid, trim d0, trim c0, trim dl0, false⟩] ∧
    (addTask st now uid cid args).state.db.nextId = st.db.nextId + 1 ∧
    (∀ t ∈ st.db.tasks, t.id ≠ st.db.nextId) ∧
    (addTask st now uid cid args).state.jobs =
      st.jobs ++ [mkAlarm st.db.nextId cid uid (trim d0)] ∧
    (mkAlarm st.db.nextId cid uid (trim d0)).name = natToStr st.db.nextId ∧
    (addTask st now uid cid args).reply = .added st.db.nextId ∧
    (addTask st now uid cid args).events =
      [.dbInsert st.db.nextId, .schedule st.db.nextId, .replySent] := by
  rw [addTask_eq_success hs hp hgt]
  exact ⟨rfl, rfl, fun t ht => Nat.ne_of_lt (hids t ht), rfl, rfl, rfl, rfl⟩

theorem claim_C5_witness :
    (addTask emptyState epoch 5 6 ["write report; work; 2025-06-10 20:00".data]).state.db.tasks
      = [⟨1, 5, "write report".data, "work".data, "2025-06-10 20:00".data, false⟩] ∧
    (addTask emptyState epoch 5 6 ["write report; work; 2025-06-10 20:00".data]).reply
      = .added 1 ∧
    (addTask emptyState epoch 5 6 ["write report; work; 2025-06-10 20:00".data]).events
      = [.dbInsert 1, .schedule 1, .replySent] := by
  have h := claim_C5_valid_add emptyState epoch 5 6
    ["write report; work; 2025-06-10 20:00".data]
    "write report".data " work".data " 2025-06-10 20:00".data wDl
    (by decide) (by decide) (by decide) (by intro t ht; simp [emptyState] at ht)
  refine ⟨?_, h.2.2.2.2.2.1, h.2.2.2.2.2.2⟩
  rw [h.1]
  decide

/-- **C8.** The claim asserts every persisted task has a non-empty trimmed
description and category.  `add_task` only strips the split pieces and
never checks for emptiness, so `/add ; work; 2030-01-01 10:00` (empty
description part) succeeds and persists a row whose trimmed description
is the empty string — refuting the claim at a reachable store. -/
theorem claim_C8_counterexample :
    (addTask emptyState epoch 7 9 ["; work; 2030-01-01 10:00".data]).reply = .added 1 ∧
    ∃ t ∈ c8state.db.tasks, trim t.description = [] := by
  decide

/-- **C8 amended.** A successful add persists the description and category
exactly as the whitespace-trimmed split pieces, with no non-emptiness
validation: the appended row carries `trim d0` and `trim c0` verbatim,
empty or not. -/
theorem claim_C8_amended_trimmed_fields (st : BotState) (now : DateTime)
    (uid cid : Nat) (args : List Str) (d0 c0 dl0 : Str) (dl : DateTime)
    (hs : splitSemi (joinSpace args) = [d0, c0, dl0])
    (hp : parseDT (trim dl0) = some dl)
    (hgt : key6 now < key6 dl) :
    (addTask st now uid cid args).state.db.tasks =
      st.db.tasks ++ [⟨st.db.nextId, uid, trim d0, trim c0, trim dl0, false⟩] ∧
    (addTask st now uid cid args).reply = .added st.db.nextId := by
  rw [addTask_eq_success hs hp hgt]
  exact ⟨rfl, rfl⟩

theorem claim_C8_amended_witness :
    (addTask emptyState epoch 7 9 ["; work; 2030-01-01 10:00".data]).state.db.tasks =
      [⟨1, 7, [], "work".data, "2030-01-01 10:00".data, false⟩] := by
  have h := claim_C8_amended_trimmed_fields emptyState epoch 7 9
    ["; work; 2030-01-01 10:00".data] [] " work".data " 2030-01-01 10:00".data
    ⟨2030, 1, 1, 10, 0, 0⟩ (by decide) (by decide) (by decide)
  rw [h.1]
  decide

/-- **C10.** An add request whose joined argument text does not split on
`;` into exactly three pieces is answered with the usage text and leaves
the state unchanged; consequently every row `add_task` ever inserts has a
description and category free of semicolons (they are trimmed split
pieces, and split pieces never contain the separator). -/
theorem claim_C10_no_semicolon_in_fields (st : BotState) (now : DateTime)
    (uid cid : Nat) (args : List Str) :
    ((splitSemi (joinSpace args)).length ≠ 3 →
      (addTask st now uid cid args).state = st ∧
      (addTask st now uid cid args).reply = .addUsage ∧
      (addTask st now uid cid args).events = [.replySent]) ∧
    (∀ t ∈ (addTask st now uid cid args).state.db.tasks,
      t ∈ st.db.tasks ∨ (';' ∉ t.description ∧ ';' ∉ t.category)) := by
  constructor
  · intro h
    rw [addTask_eq_usage h]
    exact ⟨rfl, rfl, rfl⟩
  · intro t ht
    rcases hs : splitSemi (joinSpace args) with - | ⟨p0, - | ⟨p1, - | ⟨p2, - | ⟨p3, ps⟩⟩⟩⟩
    · rw [addTask_eq_usage (by rw [hs]; simp)] at ht; exact Or.inl ht
    · rw [addTask_eq_usage (by rw [hs]; simp)] at ht; exact Or.inl ht
    · rw [addTask_eq_usage (by rw [hs]; simp)] at ht; exact Or.inl ht
    · cases hp : parseDT (trim p2) with
      | none =>
        rw [addTask_eq_invalid hs hp] at ht
        exact Or.inl ht
      | some dl =>
        by_cases hle : key6 dl ≤ key6 now
        · rw [addTask_eq_notFuture hs hp hle] at ht
          exact Or.inl ht
        · rw [addTask_eq_success hs hp (Nat.not_le.mp hle)] at ht
          rcases List.mem_append.mp ht with h | h
          · exact Or.inl h
          · right
            simp only [List.mem_singleton] at h
            subst h
            constructor
            · exact fun hc =>
                splitSemi_no_semi (hs ▸ List.mem_cons_self p0 _) (mem_trim hc)
            · exact fun hc =>
                splitSemi_no_semi
                  (hs ▸ List.mem_cons_of_mem p0 (List.mem_cons_self p1 _))
                  (mem_trim hc)
    · rw [addTask_eq_usage (by rw [hs]; simp)] at ht; exact Or.inl ht

theorem claim_C10_witness :
    (addTask emptyState epoch 7 9 ["a;b;c;d".data]).state = emptyState ∧
    (addTask emptyState epoch 7 9 ["a;b;c;d".data]).reply = .addUsage ∧
    (∀ t ∈ (addTask emptyState epoch 5 6
        ["write report; work; 2025-06-10 20:00".data]).state.db.tasks,
      t ∈ emptyState.db.tasks ∨ (';' ∉ t.description ∧ ';' ∉ t.category)) := by
  have h1 := (claim_C10_no_semicolon_in_fields emptyState epoch 7 9
    ["a;b;c;d".data]).1 (by decide)
  have h2 := (claim_C10_no_semicolon_in_fields emptyState epoch 5 6
    ["write report; work; 2025-06-10 20:00".data]).2
  exact ⟨h1.1, h1.2.1, h2⟩

/-- **C6.** Deleting an existing task of the caller removes exactly the
rows with that id and owner, cancels every pending alarm registered under
the job-queue name of that id, flags the non-fatal warning exactly when no
such alarm was pending, and still replies `deleted`; repeating the same
delete afterwards is a `NotFoundError` with the state unchanged. -/
theorem claim_C6_delete_then_not_found (st : BotState) (uid : Nat) (a : Str)
    (rest : List Str) (hd : isDigits a = true)
    (hex : ∃ t ∈ st.db.tasks, t.userId = uid ∧ t.id = strToNat a) :
    (deleteTask st uid (a :: rest)).reply = .deleted ∧
    (deleteTask st uid (a :: rest)).state.db.tasks =
      st.db.tasks.filter (fun t => !(t.id = strToNat a && t.userId = uid)) ∧
    (∀ t ∈ (deleteTask st uid (a :: rest)).state.db.tasks,
      ¬(t.id = strToNat a ∧ t.userId = uid)) ∧
    (deleteTask st uid (a :: rest)).state.jobs =
      st.jobs.filter (fun j => !(j.name = natToStr (strToNat a))) ∧
    (∀ j ∈ (deleteTask st uid (a :: rest)).state.jobs,
      j.name ≠ natToStr (strToNat a)) ∧
    ((deleteTask st uid (a :: rest)).warned = true ↔
      ∀ j ∈ st.jobs, j.name ≠ natToStr (strToNat a)) ∧
    (deleteTask (deleteTask st uid (a :: rest)).state uid (a :: rest)).reply =
      .deleteNotFound ∧
    (deleteTask (deleteTask st uid (a :: rest)).state uid (a :: rest)).reply.isNotFound
      = true ∧
    (deleteTask (deleteTask st uid (a :: rest)).state uid (a :: rest)).state =
      (deleteTask st uid (a :: rest)).state := by
  have hany : st.db.tasks.any
      (fun t => t.userId = uid && t.id = strToNat a) = true := by
    rw [List.any_eq_true]
    obtain ⟨t, ht, h1, h2⟩ := hex
    exact ⟨t, ht, by simp [h1, h2]⟩
  have hany2 : (st.db.tasks.filter
        (fun t => !(t.id = strToNat a && t.userId = uid))).any
      (fun t => t.userId = uid && t.id = strToNat a) = false := by
    rw [List.any_eq_false]
    intro t ht
    have hcond := (List.mem_filter.mp ht).2
    simp only [Bool.not_eq_eq_eq_not, Bool.not_true, Bool.and_eq_false_iff,
      decide_eq_false_iff_not] at hcond
    simp only [Bool.and_eq_true, decide_eq_true_eq, not_and]
    tauto
  rw [deleteTask_eq_found hd hany]
  refine ⟨rfl, rfl, ?_, rfl, ?_, ?_, ?_, ?_, ?_⟩
  · intro t ht
    have hcond := (List.mem_filter.mp ht).2
    simp only [Bool.not_eq_eq_eq_not, Bool.not_true, Bool.and_eq_false_iff,
      decide_eq_false_iff_not] at hcond
    tauto
  · intro j hj
    have hcond := (List.mem_filter.mp hj).2
    simpa using hcond
  · simp only [List.isEmpty_iff, List.filter_eq_nil_iff, decide_eq_true_eq]
  · rw [deleteTask_eq_notFound hd hany2]
  · rw [deleteTask_eq_notFound hd hany2]
    rfl
  · rw [deleteTask_eq_notFound hd hany2]

theorem claim_C6_witness :
    (deleteTask wState 5 ["1".data]).reply = .deleted ∧
    (∀ j ∈ (deleteTask wState 5 ["1".data]).state.jobs,
      j.name ≠ natToStr (strToNat "1".data)) ∧
    (deleteTask (deleteTask wState 5 ["1".data]).state 5 ["1".data]).reply =
      .deleteNotFound := by
  have h := claim_C6_delete_then_not_found wState 5 "1".data [] (by decide) (by decide)
  exact ⟨h.1, h.2.2.2.2.1, h.2.2.2.2.2.2.1⟩

/-- **C7.** Completing an existing, owned, not-yet-completed task flips
only the `completed` flag of the matching rows (ids, owners, descriptions,
categories and deadlines are untouched, position by position), leaves the
job queue — and hence any still-pending exact-deadline alarm — untouched,
and replies success; repeating the same complete request afterwards is a
`NotFoundError` with the state unchanged. -/
theorem claim_C7_complete_then_not_found (st : BotState) (uid : Nat) (a : Str)
    (rest : List Str) (hd : isDigits a = true)
    (hex : ∃ t ∈ st.db.tasks,
      t.userId = uid ∧ t.id = strToNat a ∧ t.completed = false) :
    (markCompleted st uid (a :: rest)).reply = .completedOk ∧
    (markCompleted st uid (a :: rest)).state.jobs = st.jobs ∧
    (markCompleted st uid (a :: rest)).state.db.nextId = st.db.nextId ∧
    (markCompleted st uid (a :: rest)).state.db.tasks.length = st.db.tasks.length ∧
    (∀ (i : Nat) (t t' : Task), st.db.tasks[i]? = some t →
      (markCompleted st uid (a :: rest)).state.db.tasks[i]? = some t' →
      t'.id = t.id ∧ t'.userId = t.userId ∧ t'.description = t.description ∧
      t'.category = t.category ∧ t'.deadline = t.deadline ∧
      t'.completed = (t.completed || (t.id = strToNat a && t.userId = uid))) ∧
    (∃ t ∈ (markCompleted st uid (a :: rest)).state.db.tasks,
      t.userId = uid ∧ t.id = strToNat a ∧ t.completed = true) ∧
    (markCompleted (markCompleted st uid (a :: rest)).state uid (a :: rest)).reply =
      .completeNotFound ∧
    (markCompleted (markCompleted st uid (a :: rest)).state uid (a :: rest)).state =
      (markCompleted st uid (a :: rest)).state := by
  have hany : st.db.tasks.any
      (fun t => t.userId = uid && t.id = strToNat a && t.completed = false) = true := by
    rw [List.any_eq_true]
    obtain ⟨t, ht, h1, h2, h3⟩ := hex
    exact ⟨t, ht, by simp [h1, h2, h3]⟩
  have hany2 : (st.db.tasks.map (fun t =>
        if t.id = strToNat a && t.userId = uid then
          { t with completed := true } else t)).any
      (fun t => t.userId = uid && t.id = strToNat a && t.completed = false) = false := by
    rw [Bool.eq_false_iff]
    intro hx
    rw [List.any_eq_true] at hx
    obtain ⟨t', ht', hp⟩ := hx
    obtain ⟨t, ht, hft⟩ := List.mem_map.mp ht'
    subst hft
    by_cases hcond : (t.id = strToNat a && t.userId = uid) = true
    · rw [if_pos hcond] at hp
      simp at hp
    · rw [if_neg hcond] at hp
      simp only [Bool.and_eq_true, decide_eq_true_eq, not_and] at hcond
      simp only [Bool.and_eq_true, decide_eq_true_eq] at hp
      exact hcond hp.1.2 hp.1.1
  rw [markCompleted_eq_found hd hany]
  refine ⟨rfl, rfl, rfl, by simp, ?_, ?_, ?_, ?_⟩
  · intro i t t' h1 h2
    have h2' : (st.db.tasks.map (fun t =>
        if t.id = strToNat a && t.userId = uid then
          { t with completed := true } else t))[i]? = some t' := h2
    rw [List.getElem?_map, h1] at h2'
    have h3 : (if t.id = strToNat a && t.userId = uid then
        { t with completed := true } else t) = t' := Option.some.inj h2'
    by_cases hcond : (t.id = strToNat a && t.userId = uid) = true
    · rw [if_pos hcond] at h3
      subst h3
      simp [hcond]
    · rw [if_neg hcond] at h3
      subst h3
      have hc : (decide (t.id = strToNat a) && decide (t.userId = uid)) = false :=
        Bool.eq_false_iff.mpr hcond
      simp [hc]
  · obtain ⟨t, ht, h1, h2, h3⟩ := hex
    refine ⟨{ t with completed := true }, ?_, h1, h2, rfl⟩
    have hmem := List.mem_map_of_mem (fun t =>
      if t.id = strToNat a && t.userId = uid then
        { t with completed := true } else t) ht
    have heq : ((fun t =>
        if t.id = strToNat a && t.userId = uid then
          { t with completed := true } else t) t)
        = { t with completed := true } := if_pos (by simp [h1, h2])
    rw [heq] at hmem
    exact hmem
  · rw [markCompleted_eq_notFound hd hany2]
  · rw [markCompleted_eq_notFound hd hany2]

theorem claim_C7_witness :
    (markCompleted wState 5 ["1".data]).reply = .completedOk ∧
    (markCompleted wState 5 ["1".data]).state.jobs = wState.jobs ∧
    (∃ t ∈ (markCompleted wState 5 ["1".data]).state.db.tasks,
      t.userId = 5 ∧ t.id = strToNat "1".data ∧ t.completed = true) ∧
    (markCompleted (markCompleted wState 5 ["1".data]).state 5 ["1".data]).reply =
      .completeNotFound := by
  have h := claim_C7_complete_then_not_found wState 5 "1".data [] (by decide) (by decide)
  exact ⟨h.1, h.2.1, h.2.2.2.2.2.1, h.2.2.2.2.2.2.1⟩

/-- **C2 counterexample.** The claim promises chronological order within
each completion group, but deadlines are compared as text and the lenient
`strptime` also persists non-zero-padded deadlines.  In the reachable
store `c2state` (built by two `/add` requests) the `/list` order puts the
October 1st task before the September 1st task, because
`"2025-10-01 09:00" < "2025-9-01 10:00"` as text while October is
chronologically later. -/
theorem claim_C2_counterexample :
    (listRows c2state 7).length = 2 ∧
    (∀ t ∈ listRows c2state 7, t.completed = false) ∧
    chronKey ((listRows c2state 7)[1]!) < chronKey ((listRows c2state 7)[0]!) := by
  decide

/-- **C2 amended.** `ListTasks` returns the owner's tasks ordered by
`completed` ascending and, within each group, ascending by deadline *text*
(BINARY collation); for canonically zero-padded `YYYY-MM-DD HH:MM`
deadlines that text order coincides with chronological order; when the
owner has zero tasks the reply is exactly `"No tasks found."`. -/
theorem claim_C2_list_order (st : BotState) (uid : Nat) :
    List.Perm (listRows st uid) (st.db.tasks.filter (fun t => t.userId = uid)) ∧
    (listRows st uid).Pairwise (fun a b =>
      (a.completed = true → b.completed = true) ∧
      (a.completed = b.completed → lexLe a.deadline b.deadline = true)) ∧
    (listRows st uid).Pairwise (fun a b => ∀ da db : DateTime,
      BoundedDT da → BoundedDT db →
      a.deadline = fmt16 da → b.deadline = fmt16 db →
      a.completed = b.completed → key5 da ≤ key5 db) ∧
    (st.db.tasks.filter (fun t => t.userId = uid) = [] →
      listTasksReply st uid = "No tasks found.".data) := by
  refine ⟨sortRows_perm _, ?_, ?_, ?_⟩
  · refine (sortRows_pairwise _).imp ?_
    intro a b hab
    constructor
    · intro hac
      by_cases h : a.completed = b.completed
      · exact h ▸ hac
      · rw [rowLe, if_neg h, decide_eq_true_eq] at hab
        rw [hac] at hab
        simp at hab
    · intro h
      rw [rowLe, if_pos h] at hab
      exact hab
  · refine (sortRows_pairwise _).imp ?_
    intro a b hab da db hba hbb hfa hfb hcc
    rw [rowLe, if_pos hcc, hfa, hfb] at hab
    simp only [lexLe, Bool.not_eq_eq_eq_not, Bool.not_true] at hab
    rw [fmt16_lt hbb hba] at hab
    simp only [decide_eq_false_iff_not, Nat.not_lt] at hab
    exact hab
  · intro hempty
    simp [listTasksReply, listRows, hempty, sortRows]

theorem claim_C2_witness :
    listTasksReply emptyState 7 = "No tasks found.".data :=
  (claim_C2_list_order emptyState 7).2.2.2 (by decide)

/-- **C3 counterexample.** The sweep's SQL compares the 16-character
deadline text with the 19-character `datetime('now','localtime')` text;
when `now` falls exactly on a minute boundary, a task due exactly at `now`
(chronologically inside `[now, now+24h)`) is *excluded* — the shorter
string is a strict prefix, hence smaller — while a task due exactly at
`now + 24h` (outside the claimed half-open window) is *included*. -/
theorem claim_C3_boundary_counterexample :
    (c3task.completed = false ∧ c3task.deadline = fmt16 c3dl ∧ ValidDT c3dl ∧
      key6 c3now ≤ key6 c3dl ∧ key6 c3dl < key6 (add24h c3now) ∧
      c3task ∉ dueQuery c3now [c3task]) ∧
    (c3taskUp.completed = false ∧ c3taskUp.deadline = fmt16 c3dlUp ∧ ValidDT c3dlUp ∧
      ¬(key6 c3dlUp < key6 (add24h c3now)) ∧
      c3taskUp ∈ dueQuery c3now [c3taskUp]) := by
  decide

/-- **C3 amended.** (i) Within one run of the polling loop, with
nondecreasing observed clock values, the sweep fires at most once per
calendar day.  (ii) For a task with a canonically formatted deadline, the
repository query selects it iff it is incomplete and its minute key lies
in `(minute-floor(now), minute-floor(now) + 24h]`; whenever `now` does not
fall exactly on a minute boundary this is precisely the claimed
chronological window `[now, now+24h)`. -/
theorem claim_C3_sweep_amended :
    (∀ ts : List DateTime, (∀ x ∈ ts, ValidDT x) →
      ts.Pairwise (fun a b => key6 a ≤ key6 b) →
      ∀ D, (sweepFires false ts).countP (fun m => dateKey m = D) ≤ 1) ∧
    (∀ (now d : DateTime) (tasks : List Task) (t : Task),
      ValidDT now → now.year ≤ 9998 → ValidDT d → t.deadline = fmt16 d →
      t ∈ tasks →
      (t ∈ dueQuery now tasks ↔
        t.completed = false ∧ key5 now < key5 d ∧ key5 d ≤ key5 (add24h now)) ∧
      (now.second ≠ 0 → d.second = 0 →
        (t ∈ dueQuery now tasks ↔
          t.completed = false ∧ key6 now ≤ key6 d ∧ key6 d < key6 (add24h now)))) := by
  constructor
  · intro ts hv hp D
    exact sweepFires_once_per_day false ts (fun x hx => validDT_bounded (hv x hx)) hp D
  · intro now d tasks t hvn hy hvd hcanon hmem
    have hbn := validDT_bounded hvn
    have hbu := bounded_add24h hvn hy
    have hbd := validDT_bounded hvd
    have hq := mem_dueQuery tasks t hbn hbu hbd hcanon
    obtain ⟨-, -, -, -, -, -, -, -, h9n⟩ := hvn
    constructor
    · rw [hq]
      exact ⟨fun h => h.2, fun h => ⟨hmem, h⟩⟩
    · intro hs hd0
      rw [hq]
      have hsec : (add24h now).second = now.second := add24h_second now
      have hiff : (key5 now < key5 d ∧ key5 d ≤ key5 (add24h now)) ↔
          (key6 now ≤ key6 d ∧ key6 d < key6 (add24h now)) := by
        simp only [key6]
        omega
      exact ⟨fun h => ⟨h.2.1, hiff.mp h.2.2⟩, fun h => ⟨hmem, h.1, hiff.mpr h.2⟩⟩

theorem claim_C3_witness :
    ((sweepFires false c9run1).countP (fun m => dateKey m = dateKey c9day) ≤ 1) ∧
    (wTask ∈ dueQuery wNow [wTask] ↔
      wTask.completed = false ∧ key6 wNow ≤ key6 wDl ∧ key6 wDl < key6 (add24h wNow)) := by
  constructor
  · exact claim_C3_sweep_amended.1 c9run1 (by decide) (by decide) (dateKey c9day)
  · exact (claim_C3_sweep_amended.2 wNow wDl [wTask] wTask (by decide) (by decide)
      (by decide) (by decide) (by decide)).2 (by decide) (by decide)

/-- **C9 counterexample.** The once-per-day latch `reminded_today` is a
local variable re-initialised to `False` by every `run_notifiers` call, so
a process stopped and restarted after the daily reminder time sends the
bulk reminder a second time that day: run 1 fires at 09:00:10, the
restarted run 2 fires again at 10:00:00 on 2025-06-10. -/
theorem claim_C9_restart_double_send :
    processRunFires c9run1 = [⟨2025, 6, 10, 9, 0, 10⟩] ∧
    processRunFires c9run2 = [⟨2025, 6, 10, 10, 0, 0⟩] ∧
    (processRunFires c9run1 ++ processRunFires c9run2).countP
      (fun m => dateKey m = dateKey c9day) = 2 := by
  decide

/-- **C9 amended.** Within a single process run the daily sweep fires at
most once per calendar day, but the latch does not survive restarts: a
freshly started run fires on its very first observation at or past the
daily reminder time, regardless of any send before the restart — so a
restart after the reminder time produces a second send that day. -/
theorem claim_C9_amended_restart :
    (∀ ts : List DateTime, (∀ x ∈ ts, ValidDT x) →
      ts.Pairwise (fun a b => key6 a ≤ key6 b) →
      ∀ D, (processRunFires ts).countP (fun m => dateKey m = D) ≤ 1) ∧
    (∀ (n : DateTime) (obs : List DateTime),
      key6 (reminderStartOf n) ≤ key6 n → n ∈ processRunFires (n :: obs)) := by
  constructor
  · intro ts hv hp D
    exact sweepFires_once_per_day false ts (fun x hx => validDT_bounded (hv x hx)) hp D
  · intro n obs h
    exact processRunFires_head obs h

theorem claim_C9_witness :
    ((processRunFires c9run1).countP (fun m => dateKey m = dateKey c9day) ≤ 1) ∧
    (⟨2025, 6, 10, 10, 0, 0⟩ : DateTime) ∈ processRunFires c9run2 := by
  constructor
  · exact claim_C9_amended_restart.1 c9run1 (by decide) (by decide) (dateKey c9day)
  · exact claim_C9_amended_restart.2 ⟨2025, 6, 10, 10, 0, 0⟩ [] (by decide)

end Bot
